import Mathlib

/-!
# keywhiz-fs: secret cache with tiered-timeout retrieval — verification

A shallow embedding of the core of the keywhiz-fs repository: the `SecretMap`
store (`secretmap.go`), the `Cache` coordinator (`cache.go`, channel-race
variant), and the base64 secret-content decoder (`secret.go`), together with
theorems settling the specification claims about them.

Modelling conventions:
* `time.Time` instants are `Nat`; the Go zero instant is `0` (all real
  instants are positive).  `time.Duration` values are `Nat`.
* The Go `map[string]SecretTime` is an association list with unique keys;
  insertion replaces the existing binding.  Iteration order of a Go map is
  unspecified, so list order carries no meaning beyond determinization.
* The injected clock (`now func() time.Time`) becomes an explicit `now : Nat`
  argument to every operation that reads the clock.
* The channel-coordinated select loops of `Cache.Secret` / `Cache.SecretList`
  become step functions over an explicit list of scheduler events; each event
  corresponds to one `select` arm firing, and an event whose channel is not
  enabled (nil channel, already-consumed channel, unarmed timer) is skipped.
-/

namespace KeywhizFS

/-- Instants of `time.Time`; `0` is the Go zero instant (`time.Time{}`). -/
abbrev Time := Nat

/-- `Secret` from secret.go: data returned after processing a server request. -/
structure Secret where
  name : String
  content : List Nat
  length : Nat
  createdAt : Nat
  isVersioned : Bool
  mode : String
  owner : String
  group : String
  deriving Repr, DecidableEq

/-- The zero value of the Go `Secret` struct. -/
def zeroSecret : Secret := ⟨"", [], 0, 0, false, "", "", ""⟩

/-- `SecretTime` from secretmap.go: a Secret record with its insertion time,
its delayed-deletion deadline (`ttl`, zero meaning none) and the tombstone
flag (`deleted`). -/
structure SecretTime where
  secret : Secret
  time : Nat
  ttl : Nat
  deleted : Bool
  deriving Repr, DecidableEq

/-- The zero value of the Go `SecretTime` struct. -/
def zeroSecretTime : SecretTime := ⟨zeroSecret, 0, 0, false⟩

/-- `Timeouts` from cache.go. -/
structure Timeouts where
  fresh : Nat
  backendDeadline : Nat
  maxWait : Nat
  deletionDelay : Nat
  deriving Repr, DecidableEq

/-- Association-list lookup, embedding Go's `s, ok = m.m[key]`. -/
def alookup : List (String × SecretTime) → String → Option SecretTime
  | [], _ => none
  | (k, v) :: rest, key => if k = key then some v else alookup rest key

/-- Association-list removal, embedding Go's `delete(m.m, key)`. -/
def aerase : List (String × SecretTime) → String → List (String × SecretTime)
  | [], _ => []
  | (k, v) :: rest, key =>
    if k = key then aerase rest key else (k, v) :: aerase rest key

/-- Association-list insertion, embedding Go's `m.m[key] = v` (replace the
binding for `key` when present, add it otherwise). -/
def ainsert (l : List (String × SecretTime)) (key : String) (v : SecretTime) :
    List (String × SecretTime) :=
  aerase l key ++ [(key, v)]

/-- `SecretMap` from secretmap.go: keyed store plus the timeout configuration
used for delayed deletion. -/
structure SecretMap where
  m : List (String × SecretTime)
  timeouts : Timeouts
  deriving Repr, DecidableEq

/-- `NewSecretMap` from secretmap.go. -/
def NewSecretMap (timeouts : Timeouts) : SecretMap := ⟨[], timeouts⟩

/-- `isExpired` from secretmap.go: `!s.ttl.IsZero() && s.ttl.Before(now)`. -/
def isExpired (s : SecretTime) (now : Nat) : Bool :=
  s.ttl != 0 && decide (s.ttl < now)

/-- `SecretMap.Get` from secretmap.go.  Returns the Go results `(s, ok)`
paired with the map after the call (an expired entry is removed). -/
def SecretMap.Get (m : SecretMap) (key : String) (now : Nat) :
    (SecretTime × Bool) × SecretMap :=
  match alookup m.m key with
  | none => ((zeroSecretTime, false), m)
  | some s =>
    if isExpired s now then
      (({ zeroSecretTime with deleted := true }, false),
        { m with m := aerase m.m key })
    else ((s, true), m)

/-- `SecretMap.Put` from secretmap.go: `updated = 0` (the Go zero instant)
defaults to the current clock; the new entry has zero ttl and a cleared
tombstone flag. -/
def SecretMap.Put (m : SecretMap) (key : String) (value : Secret)
    (updated : Nat) (now : Nat) : SecretMap :=
  let u := if updated = 0 then now else updated
  { m with m := ainsert m.m key ⟨value, u, 0, false⟩ }

/-- `SecretMap.Delete` from secretmap.go: schedule an entry for deletion.  If
present with zero ttl, stamp `now + DeletionDelay`; if absent, materialize a
tombstone entry carrying that deadline. -/
def SecretMap.Delete (m : SecretMap) (key : String) (now : Nat) : SecretMap :=
  let expire := now + m.timeouts.deletionDelay
  match alookup m.m key with
  | some v =>
    { m with m := ainsert m.m key (if v.ttl = 0 then { v with ttl := expire } else v) }
  | none =>
    { m with m := ainsert m.m key ⟨zeroSecret, now, expire, true⟩ }

/-- `SecretMap.Replace` from secretmap.go: drop entries with empty content,
schedule every remaining unscheduled entry for delayed deletion, then overlay
all of `m2`'s entries. -/
def SecretMap.Replace (m : SecretMap) (m2 : SecretMap) (now : Nat) : SecretMap :=
  let expire := now + m.timeouts.deletionDelay
  let kept := m.m.filter (fun kv => !(kv.2.secret.content.isEmpty))
  let scheduled := kept.map (fun kv =>
    (kv.1, if kv.2.ttl = 0 then { kv.2 with ttl := expire } else kv.2))
  { m with m := m2.m.foldl (fun acc kv => ainsert acc kv.1 kv.2) scheduled }

/-- `SecretMap.Overwrite` from secretmap.go: adopt `m2`'s map wholesale. -/
def SecretMap.Overwrite (m : SecretMap) (m2 : SecretMap) : SecretMap :=
  { m with m := m2.m }

/-- `SecretMap.Values` from secretmap.go: iterate the map, removing expired
entries and collecting the secrets of the rest.  Returns the collected values
paired with the purged map. -/
def SecretMap.Values (m : SecretMap) (now : Nat) : List Secret × SecretMap :=
  ((m.m.filter (fun kv => !isExpired kv.2 now)).map (fun kv => kv.2.secret),
    { m with m := m.m.filter (fun kv => !isExpired kv.2 now) })

/-- `SecretMap.Len` from secretmap.go: `len(m.Values())`. -/
def SecretMap.Len (m : SecretMap) (now : Nat) : Nat :=
  (m.Values now).1.length

/-! ## Cache coordinator (cache.go, channel-race variant)

`Cache.Secret` and `Cache.SecretList` are `select` loops racing a cache
lookup goroutine, a backend goroutine and two timers.  We embed each loop as
a step function over a list of scheduler events; an event whose channel is
not enabled in the current state is skipped (a disabled channel can never be
selected). -/

/-- Result of a backend `Secret(name)` call: success, the `SecretDeleted`
sentinel error (client.go), or any other error. -/
inductive BackendResult where
  | success (s : Secret)
  | deleted
  | failure
  deriving Repr, DecidableEq

/-- One `select` arm of the `Cache.Secret` loop becoming ready. -/
inductive Ev where
  | backendDone (r : BackendResult)
  | cacheDone
  | backendDeadline
  | failureDeadline
  deriving Repr, DecidableEq

/-- Outcome of a `Cache.Secret` call: the returned `(secret, ok)` pair, the
store after the call (including the backend goroutine's write-back), whether
`backend.Secret` was ever invoked, and whether the returned value came from a
successful backend response (as opposed to the cache). -/
structure SecretCallResult where
  secret : Option Secret
  ok : Bool
  map : SecretMap
  backendCalled : Bool
  fromBackend : Bool
  deriving Repr, DecidableEq

/-- Mutable state of the `Cache.Secret` select loop. -/
structure SecretLoopState where
  cachedSecret : Option Secret
  cacheOpen : Bool
  backendStarted : Bool
  backendOpen : Bool
  deadlineArmed : Bool
  map : SecretMap
  backendCalled : Bool
  deriving Repr, DecidableEq

/-- `Cache.cacheSecret` from cache.go: a `SecretMap.Get` whose result counts
as a hit only when found with non-empty content. -/
def cacheSecretLookup (m : SecretMap) (name : String) (now : Nat) :
    Option SecretTime × SecretMap :=
  let r := m.Get name now
  if r.1.2 = true ∧ r.1.1.secret.content ≠ [] then (some r.1.1, r.2)
  else (none, r.2)

/-- The `select` loop of `Cache.Secret` (cache.go).  Each list element is the
next arm to fire; an arm whose channel is disabled is skipped.  An exhausted
schedule models a forever-blocked call and yields the not-found result. -/
def secretLoop (name : String) (now : Nat) :
    SecretLoopState → List Ev → SecretCallResult
  | st, [] => ⟨none, false, st.map, st.backendCalled, false⟩
  | st, ev :: rest =>
    match ev with
    | .backendDone r =>
      if st.backendStarted ∧ st.backendOpen then
        match r with
        | .success s =>
          ⟨some s, true, st.map.Put name s 0 now, st.backendCalled, true⟩
        | .deleted =>
          let m' := st.map.Delete name now
          if st.cacheOpen then
            secretLoop name now { st with backendOpen := false, map := m' } rest
          else
            ⟨st.cachedSecret, st.cachedSecret.isSome, m', st.backendCalled, false⟩
        | .failure =>
          if st.cacheOpen then
            secretLoop name now { st with backendOpen := false } rest
          else
            ⟨st.cachedSecret, st.cachedSecret.isSome, st.map, st.backendCalled, false⟩
      else secretLoop name now st rest
    | .cacheDone =>
      if st.cacheOpen then
        match cacheSecretLookup st.map name now with
        | (some sct, m') =>
          if now - sct.time < st.map.timeouts.fresh then
            ⟨some sct.secret, true, m', st.backendCalled, false⟩
          else
            secretLoop name now
              { cachedSecret := some sct.secret, cacheOpen := false,
                backendStarted := true, backendOpen := true,
                deadlineArmed := true, map := m', backendCalled := true } rest
        | (none, m') =>
          secretLoop name now
            { st with
              cacheOpen := false, backendStarted := true,
              backendOpen := true, deadlineArmed := true, map := m',
              backendCalled := true } rest
      else secretLoop name now st rest
    | .backendDeadline =>
      if st.deadlineArmed then
        match st.cachedSecret with
        | some s => ⟨some s, true, st.map, st.backendCalled, false⟩
        | none => secretLoop name now { st with deadlineArmed := false } rest
      else secretLoop name now st rest
    | .failureDeadline => ⟨none, false, st.map, st.backendCalled, false⟩

/-- `Cache.Secret` from cache.go, as a run of the select loop from its
initial state under a given event schedule. -/
def cacheSecretCall (m : SecretMap) (name : String) (now : Nat)
    (evs : List Ev) : SecretCallResult :=
  secretLoop name now ⟨none, true, false, false, false, m, false⟩ evs

/-- The new-map construction inside `Cache.backendSecretList` (cache.go): per
backend entry with empty content, keep the cache's non-empty entry when one
exists; otherwise take the backend entry.  Threads the store because the
embedded `SecretMap.Get` calls may purge expired entries. -/
def buildNewMap (m nm : SecretMap) (listing : List Secret) (now : Nat) :
    SecretMap × SecretMap :=
  match listing with
  | [] => (nm, m)
  | b :: rest =>
    if b.content = [] then
      let r := m.Get b.name now
      if r.1.2 = true ∧ r.1.1.secret.content ≠ [] then
        buildNewMap r.2 (nm.Put b.name r.1.1.secret 0 now) rest now
      else
        buildNewMap r.2 (nm.Put b.name b 0 now) rest now
    else
      buildNewMap m (nm.Put b.name b 0 now) rest now

/-- The store update performed by `Cache.backendSecretList` on a successful
backend listing: build the new map, then `Replace` the store with it. -/
def backendListReplace (m : SecretMap) (listing : List Secret) (now : Nat) :
    SecretMap :=
  let r := buildNewMap m (NewSecretMap m.timeouts) listing now
  r.2.Replace r.1 now

/-- Full effect of a successful backend listing in `Cache.backendSecretList`:
replace the store and read back its values. -/
def backendListMerge (m : SecretMap) (listing : List Secret) (now : Nat) :
    List Secret × SecretMap :=
  (backendListReplace m listing now).Values now

/-- One `select` arm of the `Cache.SecretList` loop becoming ready.  A failed
backend listing never fulfills its channel, so it produces no event. -/
inductive LEv where
  | backendDone (listing : List Secret)
  | cacheDone
  | backendDeadline
  | failureDeadline
  deriving Repr, DecidableEq

/-- Mutable state of the `Cache.SecretList` select loop. -/
structure ListLoopState where
  cachedSecrets : Option (List Secret)
  cacheOpen : Bool
  backendOpen : Bool
  deadlineArmed : Bool
  map : SecretMap
  deriving Repr, DecidableEq

/-- The `select` loop of `Cache.SecretList` (cache.go).  The cache arm stores
the snapshot; the backend arm merges and returns the post-merge values; the
backend-deadline arm returns the snapshot once available; the max-wait arm
returns `make([]Secret, 0)`. -/
def secretListLoop (now : Nat) :
    ListLoopState → List LEv → List Secret × SecretMap
  | st, [] => ([], st.map)
  | st, ev :: rest =>
    match ev with
    | .backendDone listing =>
      if st.backendOpen then backendListMerge st.map listing now
      else secretListLoop now st rest
    | .cacheDone =>
      if st.cacheOpen then
        let r := st.map.Values now
        secretListLoop now
          { st with
            cachedSecrets := some r.1, cacheOpen := false, map := r.2 } rest
      else secretListLoop now st rest
    | .backendDeadline =>
      if st.deadlineArmed then
        match st.cachedSecrets with
        | some vals => (vals, st.map)
        | none => secretListLoop now { st with deadlineArmed := false } rest
      else secretListLoop now st rest
    | .failureDeadline => ([], st.map)

/-- `Cache.SecretList` from cache.go, as a run of the select loop from its
initial state (both timers armed at call start) under an event schedule. -/
def cacheSecretListCall (m : SecretMap) (now : Nat) (evs : List LEv) :
    List Secret × SecretMap :=
  secretListLoop now ⟨none, true, true, true, m⟩ evs

/-! ## Secret content decoding (secret.go)

`content.UnmarshalJSON` pads the base64 string with `=` up to a multiple of
four and decodes it with Go's `base64.StdEncoding`.  We embed the standard
base64 alphabet, a reference encoder, and a decoder matching the standard
(non-strict) Go decoder on well-formed input. -/

/-- The standard base64 alphabet used by `base64.StdEncoding`. -/
def b64Alphabet : List Char :=
  "ABCDEFGHIJKLMNOPQRSTUVWXYZabcdefghijklmnopqrstuvwxyz0123456789+/".toList

/-- Character for a 6-bit group. -/
def encode6 (n : Nat) : Char := b64Alphabet.getD n 'A'

/-- 6-bit group for a character: its index in the alphabet, as built by Go's
`NewEncoding` decode table. -/
def decode6 (c : Char) : Option Nat := b64Alphabet.findIdx? (· = c)

/-- Standard base64 encoding of a byte sequence, with `=` padding. -/
def b64Encode : List Nat → List Char
  | [] => []
  | [a] => [encode6 (a / 4), encode6 (a % 4 * 16), '=', '=']
  | [a, b] =>
    [encode6 (a / 4), encode6 (a % 4 * 16 + b / 16), encode6 (b % 16 * 4), '=']
  | a :: b :: c :: rest =>
    encode6 (a / 4) :: encode6 (a % 4 * 16 + b / 16) ::
      encode6 (b % 16 * 4 + c / 64) :: encode6 (c % 64) :: b64Encode rest

/-- Base64 decoding as performed by `base64.StdEncoding.DecodeString`:
quartets of alphabet characters, with `=` padding allowed only in the final
quartet. -/
def b64Decode : List Char → Option (List Nat)
  | [] => some []
  | c1 :: c2 :: c3 :: c4 :: rest =>
    match decode6 c1, decode6 c2 with
    | some v1, some v2 =>
      if c3 = '=' then
        if c4 = '=' ∧ rest = [] then some [v1 * 4 + v2 / 16] else none
      else
        match decode6 c3 with
        | some v3 =>
          if c4 = '=' then
            if rest = [] then some [v1 * 4 + v2 / 16, v2 % 16 * 16 + v3 / 4]
            else none
          else
            match decode6 c4 with
            | some v4 =>
              (b64Decode rest).map (fun bs =>
                (v1 * 4 + v2 / 16) :: (v2 % 16 * 16 + v3 / 4) ::
                  (v3 % 4 * 64 + v4) :: bs)
            | none => none
        | none => none
    | _, _ => none
  | _ => none

/-- The padding step of `content.UnmarshalJSON` (secret.go): if the length is
not a multiple of four, append `=` until it is. -/
def addPadding (s : List Char) : List Char :=
  if s.length % 4 = 0 then s else s ++ List.replicate (4 - s.length % 4) '='

/-- The core of `content.UnmarshalJSON` (secret.go): pad with `=` to a
multiple of four, then decode standard base64. -/
def unmarshalContent (s : List Char) : Option (List Nat) :=
  b64Decode (addPadding s)

/-- Removal of the trailing `=` padding characters from an encoding, as in
the claim about unpadded payloads. -/
def stripTrailingPad (s : List Char) : List Char :=
  (s.reverse.dropWhile (· = '=')).reverse

/-! ## Concrete fixtures used by witnesses and counterexamples -/

/-- A timeout configuration: fresh 100, backend deadline 10, max wait 20,
deletion delay 5. -/
def exTimeouts : Timeouts := ⟨100, 10, 20, 5⟩

/-- A sample secret with one byte of content. -/
def exSecret : Secret := { zeroSecret with name := "foo", content := [66], length := 1 }

/-- A second sample secret with different content. -/
def exSecret2 : Secret := { zeroSecret with name := "foo", content := [67], length := 1 }

/-- Store holding an entry for "k" whose deletion deadline (3) has passed by
time 9. -/
def exMapExpired : SecretMap := ⟨[("k", ⟨exSecret, 1, 3, false⟩)], exTimeouts⟩

/-- Store holding a tombstone for "k" whose deadline (10) has not passed at
time 5. -/
def exMapTomb : SecretMap := ⟨[("k", ⟨zeroSecret, 1, 10, true⟩)], exTimeouts⟩

/-- Store holding an entry for "k" whose deletion deadline is exactly 5. -/
def exMapBoundary : SecretMap := ⟨[("k", ⟨exSecret, 1, 5, false⟩)], exTimeouts⟩

/-- Store holding a live (ttl-zero) entry for "k" inserted at time 1. -/
def exMapLive : SecretMap := ⟨[("k", ⟨exSecret, 1, 0, false⟩)], exTimeouts⟩

/-- Store holding an entry for "k" inserted at time 2 and scheduled for
deletion at time 8 (a pending-delete entry); at time 10 it is expired while
still young relative to `fresh = 100`. -/
def exMapPendingExpired : SecretMap :=
  ⟨[("k", ⟨exSecret, 2, 8, false⟩)], exTimeouts⟩

/-- Sample secret named "k1" with content. -/
def exSecretK1 : Secret := { zeroSecret with name := "k1", content := [66] }

/-- Sample secret named "k2" with content. -/
def exSecretK2 : Secret := { zeroSecret with name := "k2", content := [67] }

/-- Metadata-only sample secret named "k3" (empty content). -/
def exSecretK3Meta : Secret := { zeroSecret with name := "k3" }

/-- Backend listing entry for "k1" with empty content, as produced by a
metadata-only `GET /secrets` listing. -/
def exListingK1 : Secret := { zeroSecret with name := "k1" }

/-- Store with live entries for "k1" (content), "k2" (content) and "k3"
(metadata-only). -/
def exMapThree : SecretMap :=
  ⟨[("k1", ⟨exSecretK1, 1, 0, false⟩), ("k2", ⟨exSecretK2, 1, 0, false⟩),
    ("k3", ⟨exSecretK3Meta, 1, 0, false⟩)], exTimeouts⟩

/-- Store holding a non-empty entry for "k1" whose deletion deadline (3) has
passed by time 10. -/
def exMapExpiredK1 : SecretMap := ⟨[("k1", ⟨exSecretK1, 1, 3, false⟩)], exTimeouts⟩

/-! ## Association-list lemmas -/

theorem alookup_append (l₁ l₂ : List (String × SecretTime)) (k : String) :
    alookup (l₁ ++ l₂) k =
      match alookup l₁ k with
      | some v => some v
      | none => alookup l₂ k := by
  induction l₁ with
  | nil => simp [alookup]
  | cons kv rest ih =>
    by_cases h : kv.1 = k <;> simp [alookup, h, ih]

theorem alookup_aerase_self (l : List (String × SecretTime)) (k : String) :
    alookup (aerase l k) k = none := by
  induction l with
  | nil => simp [aerase, alookup]
  | cons kv rest ih =>
    by_cases h : kv.1 = k <;> simp [aerase, alookup, h, ih]

theorem alookup_aerase_ne (l : List (String × SecretTime)) (k k' : String)
    (h : k' ≠ k) : alookup (aerase l k) k' = alookup l k' := by
  induction l with
  | nil => simp [aerase]
  | cons kv rest ih =>
    by_cases hk : kv.1 = k
    · have hne : ¬(kv.1 = k') := by rw [hk]; exact fun hh => h hh.symm
      simp [aerase, alookup, hk, hne, ih, Ne.symm h]
    · by_cases hk' : kv.1 = k' <;> simp [aerase, alookup, hk, hk', ih, h]

theorem alookup_ainsert_self (l : List (String × SecretTime)) (k : String)
    (v : SecretTime) : alookup (ainsert l k v) k = some v := by
  simp [ainsert, alookup_append, alookup_aerase_self, alookup]

theorem alookup_ainsert_ne (l : List (String × SecretTime)) (k k' : String)
    (v : SecretTime) (h : k' ≠ k) :
    alookup (ainsert l k v) k' = alookup l k' := by
  have hne : ¬(k = k') := fun hh => h hh.symm
  simp [ainsert, alookup_append, alookup_aerase_ne l k k' h, alookup, hne]
  cases alookup l k' <;> simp

theorem aerase_of_alookup_none (l : List (String × SecretTime)) (k : String)
    (h : alookup l k = none) : aerase l k = l := by
  induction l with
  | nil => simp [aerase]
  | cons kv rest ih =>
    by_cases hk : kv.1 = k
    · simp [alookup, hk] at h
    · simp [alookup, hk] at h
      simp [aerase, hk, ih h]

/-- Keys of an association list. -/
def akeys (l : List (String × SecretTime)) : List String := l.map Prod.fst

theorem alookup_eq_none_of_not_mem_akeys (l : List (String × SecretTime))
    (k : String) (h : k ∉ akeys l) : alookup l k = none := by
  induction l with
  | nil => rfl
  | cons kv rest ih =>
    simp [akeys] at h
    simp [alookup, ih (by simp [akeys, h.2])]
    intro hk; exact absurd hk.symm h.1

/-! ## Basic facts about expiry -/

theorem isExpired_false_iff (s : SecretTime) (now : Nat) :
    isExpired s now = false ↔ (s.ttl = 0 ∨ now ≤ s.ttl) := by
  simp only [isExpired, Bool.and_eq_false_iff, bne_eq_false_iff_eq,
    decide_eq_false_iff_not]
  omega

/-! ## Claim C7 -/

/-- C7: after `put(n, s, t)` — regardless of the prior state of the entry for
`n`, including pending-delete and tombstone states — the entry for `n` has a
zero `ttl_deadline` (no deletion scheduled), `inserted_at` equal to `t` (or
the current clock when `t` is the zero instant), and a subsequent `get(n)` at
any time returns `s` with `found = true`. -/
theorem c7_put_resets_entry (m : SecretMap) (n : String) (s : Secret)
    (t now now' : Nat) :
    alookup (m.Put n s t now).m n =
      some ⟨s, if t = 0 then now else t, 0, false⟩ ∧
    (m.Put n s t now).Get n now' =
      ((⟨s, if t = 0 then now else t, 0, false⟩, true), m.Put n s t now) := by
  have hl : alookup (m.Put n s t now).m n =
      some ⟨s, if t = 0 then now else t, 0, false⟩ := by
    simp only [SecretMap.Put]
    exact alookup_ainsert_self m.m n _
  refine ⟨hl, ?_⟩
  simp [SecretMap.Get, hl, isExpired]

/-! ## Claim C10 -/

/-- C10: `SecretMap.Delete` on an absent key inserts a tombstone whose Secret
payload is the zero value, stamped `now + deletion_delay`; while that
deadline has not passed, `Values()` includes the zero-valued Secret and
`Len()` counts it. -/
theorem c10_delete_absent_tombstone (m : SecretMap) (n : String) (now t : Nat)
    (habs : alookup m.m n = none)
    (hlive : ¬(now + m.timeouts.deletionDelay < t)) :
    alookup (m.Delete n now).m n =
      some ⟨zeroSecret, now, now + m.timeouts.deletionDelay, true⟩ ∧
    zeroSecret ∈ ((m.Delete n now).Values t).1 ∧
    (m.Delete n now).Len t = m.Len t + 1 := by
  have hmap : (m.Delete n now).m =
      m.m ++ [(n, ⟨zeroSecret, now, now + m.timeouts.deletionDelay, true⟩)] := by
    simp [SecretMap.Delete, habs, ainsert, aerase_of_alookup_none m.m n habs]
  have hexp : isExpired ⟨zeroSecret, now, now + m.timeouts.deletionDelay, true⟩ t
      = false := by
    rw [isExpired_false_iff]
    dsimp only
    omega
  constructor
  · rw [hmap, alookup_append, habs]
    simp [alookup]
  constructor
  · simp [SecretMap.Values, hmap, List.filter_append, hexp]
  · simp [SecretMap.Len, SecretMap.Values, hmap, List.filter_append, hexp]

/-- Witness for C10 at a concrete input: deleting the absent key "n" in the
empty store and reading values at time 4. -/
theorem c10_delete_absent_tombstone_witness :
    alookup ((NewSecretMap exTimeouts).Delete "n" 0).m "n" =
      some ⟨zeroSecret, 0, 0 + exTimeouts.deletionDelay, true⟩ ∧
    zeroSecret ∈ (((NewSecretMap exTimeouts).Delete "n" 0).Values 4).1 ∧
    ((NewSecretMap exTimeouts).Delete "n" 0).Len 4 =
      (NewSecretMap exTimeouts).Len 4 + 1 :=
  c10_delete_absent_tombstone (NewSecretMap exTimeouts) "n" 0 4
    (by decide) (by decide)

/-! ## Claim C5 -/

/-- C5 counterexample: the store `exMapTomb` holds a non-expired tombstone
for "k" at time 5 (deadline 10), yet `SecretMap.Get` returns it with
`found = true`, not `found = false` as the claim states. -/
theorem c5_counterexample :
    alookup exMapTomb.m "k" = some ⟨zeroSecret, 1, 10, true⟩ ∧
    isExpired ⟨zeroSecret, 1, 10, true⟩ 5 = false ∧
    ¬((exMapTomb.Get "k" 5).1.2 = false) := by decide

/-- C5 amended: `SecretMap.Get` on an entry whose deadline has passed removes
it and returns `found = false` with the returned entry's `deleted` flag set;
`Get` on a non-expired tombstone returns the tombstone entry with
`found = true`, the fact of deletion being observable via the entry's
`deleted` flag. -/
theorem c5_get_expired_and_tombstone :
    (∀ (m : SecretMap) (k : String) (now : Nat) (e : SecretTime),
        alookup m.m k = some e → isExpired e now = true →
        (m.Get k now).1.2 = false ∧ (m.Get k now).1.1.deleted = true ∧
        alookup (m.Get k now).2.m k = none) ∧
    (∀ (m : SecretMap) (k : String) (now : Nat) (e : SecretTime),
        alookup m.m k = some e → e.deleted = true → isExpired e now = false →
        (m.Get k now).1 = (e, true) ∧ (m.Get k now).1.1.deleted = true) := by
  constructor
  · intro m k now e hl hexp
    simp [SecretMap.Get, hl, hexp, zeroSecretTime, alookup_aerase_self]
  · intro m k now e hl hdel hexp
    simp [SecretMap.Get, hl, hexp, hdel]

/-- Witness for C5 at concrete inputs: the expired entry of `exMapExpired`
at time 9 and the live tombstone of `exMapTomb` at time 5. -/
theorem c5_get_expired_and_tombstone_witness :
    ((exMapExpired.Get "k" 9).1.2 = false ∧
      (exMapExpired.Get "k" 9).1.1.deleted = true ∧
      alookup (exMapExpired.Get "k" 9).2.m "k" = none) ∧
    ((exMapTomb.Get "k" 5).1 = (⟨zeroSecret, 1, 10, true⟩, true) ∧
      (exMapTomb.Get "k" 5).1.1.deleted = true) :=
  ⟨c5_get_expired_and_tombstone.1 exMapExpired "k" 9 ⟨exSecret, 1, 3, false⟩
      (by decide) (by decide),
    c5_get_expired_and_tombstone.2 exMapTomb "k" 5 ⟨zeroSecret, 1, 10, true⟩
      (by decide) (by decide) (by decide)⟩

/-! ## Claim C6 -/

/-- C6 counterexample: at time 5 the store `exMapBoundary` holds an entry for
"k" with `ttl_deadline = 5`; `Get` returns it with `found = true`, but the
returned entry satisfies neither `ttl_deadline = 0` nor `ttl_deadline > 5`,
so the claimed invariant `ttl_deadline == 0 ∨ ttl_deadline > t` fails. -/
theorem c6_counterexample :
    (exMapBoundary.Get "k" 5).1.2 = true ∧
    ¬((exMapBoundary.Get "k" 5).1.1.ttl = 0 ∨
      (exMapBoundary.Get "k" 5).1.1.ttl > 5) := by decide

/-- C6 amended: every entry returned by `SecretMap.Get` or contributing to
`SecretMap.Values` at time `t` satisfies `ttl_deadline == 0 ∨ ttl_deadline ≥ t`
(the code keeps an entry whose deadline equals the current instant); an entry
whose deadline has strictly passed is removed from the map by the access that
observes it and is never returned. -/
theorem c6_no_expired_entry_returned :
    (∀ (m : SecretMap) (k : String) (now : Nat),
        (m.Get k now).1.2 = true →
        (m.Get k now).1.1.ttl = 0 ∨ now ≤ (m.Get k now).1.1.ttl) ∧
    (∀ (m : SecretMap) (k : String) (now : Nat) (e : SecretTime),
        alookup m.m k = some e → isExpired e now = true →
        (m.Get k now).1.2 = false ∧ alookup (m.Get k now).2.m k = none) ∧
    (∀ (m : SecretMap) (now : Nat) (s : Secret), s ∈ (m.Values now).1 →
        ∃ p ∈ m.m, isExpired p.2 now = false ∧ p.2.secret = s ∧
          (p.2.ttl = 0 ∨ now ≤ p.2.ttl)) ∧
    (∀ (m : SecretMap) (now : Nat) (p : String × SecretTime),
        p ∈ (m.Values now).2.m → isExpired p.2 now = false) := by
  refine ⟨?_, ?_, ?_, ?_⟩
  · intro m k now hok
    match hl : alookup m.m k with
    | none => simp [SecretMap.Get, hl, zeroSecretTime] at hok ⊢
    | some e =>
      by_cases hexp : isExpired e now = true
      · simp [SecretMap.Get, hl, hexp] at hok
      · have hexp' : isExpired e now = false := by
          cases h : isExpired e now
          · rfl
          · exact absurd h hexp
        simp [SecretMap.Get, hl, hexp'] at hok ⊢
        rw [isExpired_false_iff] at hexp'
        omega
  · intro m k now e hl hexp
    simp [SecretMap.Get, hl, hexp, alookup_aerase_self]
  · intro m now s hs
    simp only [SecretMap.Values, List.mem_map, List.mem_filter] at hs
    obtain ⟨p, ⟨hp, hpe⟩, hps⟩ := hs
    refine ⟨p, hp, ?_, hps, ?_⟩
    · cases h : isExpired p.2 now
      · rfl
      · rw [h] at hpe; simp at hpe
    · have hne : isExpired p.2 now = false := by
        cases h : isExpired p.2 now
        · rfl
        · rw [h] at hpe; simp at hpe
      rw [isExpired_false_iff] at hne
      omega
  · intro m now p hp
    simp only [SecretMap.Values, List.mem_filter] at hp
    cases h : isExpired p.2 now
    · rfl
    · rw [h] at hp; simp at hp

/-- Witness for C6 at concrete inputs: the live entry of `exMapLive` at
time 3 and the expired entry of `exMapExpired` at time 9. -/
theorem c6_no_expired_entry_returned_witness :
    ((exMapLive.Get "k" 3).1.1.ttl = 0 ∨ 3 ≤ (exMapLive.Get "k" 3).1.1.ttl) ∧
    ((exMapExpired.Get "k" 9).1.2 = false ∧
      alookup (exMapExpired.Get "k" 9).2.m "k" = none) :=
  ⟨c6_no_expired_entry_returned.1 exMapLive "k" 3 (by decide),
    c6_no_expired_entry_returned.2.1 exMapExpired "k" 9 ⟨exSecret, 1, 3, false⟩
      (by decide) (by decide)⟩

/-! ## Claim C1 -/

/-- C1 counterexample: the store `exMapPendingExpired` holds a non-tombstone
entry for "k" with non-empty content and `now - inserted_at = 8 < fresh = 100`
at the time `Cache.Secret` probes the cache (time 10), satisfying every
hypothesis of the claim; yet the entry's deletion deadline (8) has passed, so
the probe misses, the backend is invoked, and the call does not return the
cached entry. -/
theorem c1_counterexample :
    alookup exMapPendingExpired.m "k" = some ⟨exSecret, 2, 8, false⟩ ∧
    (⟨exSecret, 2, 8, false⟩ : SecretTime).deleted = false ∧
    exSecret.content ≠ [] ∧
    10 - 2 < exMapPendingExpired.timeouts.fresh ∧
    (cacheSecretCall exMapPendingExpired "k" 10
      [Ev.cacheDone, Ev.failureDeadline]).backendCalled = true ∧
    (cacheSecretCall exMapPendingExpired "k" 10
      [Ev.cacheDone, Ev.failureDeadline]).ok = false := by decide

/-- C1 amended: if the store holds a non-tombstone, **non-expired** entry for
`n` with non-empty content and `now - inserted_at < fresh` when the cache
probe completes, then `Cache.Secret(n)` returns that entry with success
immediately, leaves the store unchanged, and never invokes the backend,
whatever events follow. -/
theorem c1_fresh_hit_short_circuits (m : SecretMap) (n : String) (now : Nat)
    (st : SecretTime) (evs : List Ev)
    (hl : alookup m.m n = some st)
    (_hdel : st.deleted = false)
    (hc : st.secret.content ≠ [])
    (hexp : isExpired st now = false)
    (hfresh : now - st.time < m.timeouts.fresh) :
    cacheSecretCall m n now (Ev.cacheDone :: evs) =
      ⟨some st.secret, true, m, false, false⟩ := by
  have hget : m.Get n now = ((st, true), m) := by
    simp [SecretMap.Get, hl, hexp]
  simp [cacheSecretCall, secretLoop, cacheSecretLookup, hget, hc, hfresh]

/-- Witness for C1 at a concrete input: the fresh live entry of `exMapLive`
probed at time 3. -/
theorem c1_fresh_hit_short_circuits_witness :
    cacheSecretCall exMapLive "k" 3 [Ev.cacheDone] =
      ⟨some exSecret, true, exMapLive, false, false⟩ :=
  c1_fresh_hit_short_circuits exMapLive "k" 3 ⟨exSecret, 1, 0, false⟩ []
    (by decide) (by decide) (by decide) (by decide) (by decide)

/-! ## Claim C2 -/

/-- C2: when the backend fetch inside `Cache.Secret(n)` reports the secret
deleted, the coordinator calls `store.delete(n)` (stamping the cached live
entry with `now + deletion_delay`) and returns the previously cached value;
a later `Cache.Secret(n)` performed after `deletion_delay` has elapsed, with
no intervening put for `n` and the backend still reporting deleted, returns
not-found. -/
theorem c2_deleted_grace_window (m : SecretMap) (n : String)
    (now₁ now₂ : Nat) (st : SecretTime)
    (hl : alookup m.m n = some st)
    (hc : st.secret.content ≠ [])
    (httl : st.ttl = 0)
    (hstale : m.timeouts.fresh ≤ now₁ - st.time)
    (hdelay : 0 < m.timeouts.deletionDelay)
    (hlater : now₁ + m.timeouts.deletionDelay < now₂) :
    (cacheSecretCall m n now₁ [Ev.cacheDone, Ev.backendDone .deleted]).secret
        = some st.secret ∧
    (cacheSecretCall m n now₁ [Ev.cacheDone, Ev.backendDone .deleted]).ok
        = true ∧
    alookup (cacheSecretCall m n now₁
        [Ev.cacheDone, Ev.backendDone .deleted]).map.m n =
      some { st with ttl := now₁ + m.timeouts.deletionDelay } ∧
    (cacheSecretCall
        (cacheSecretCall m n now₁ [Ev.cacheDone, Ev.backendDone .deleted]).map
        n now₂ [Ev.cacheDone, Ev.backendDone .deleted]).secret = none ∧
    (cacheSecretCall
        (cacheSecretCall m n now₁ [Ev.cacheDone, Ev.backendDone .deleted]).map
        n now₂ [Ev.cacheDone, Ev.backendDone .deleted]).ok = false := by
  have hexp1 : isExpired st now₁ = false := by
    rw [isExpired_false_iff]; left; exact httl
  have hget1 : m.Get n now₁ = ((st, true), m) := by
    simp [SecretMap.Get, hl, hexp1]
  have hnotfresh : ¬(now₁ - st.time < m.timeouts.fresh) := by omega
  have hdel1 : m.Delete n now₁ =
      { m with m := ainsert m.m n { st with ttl := now₁ + m.timeouts.deletionDelay } } := by
    simp [SecretMap.Delete, hl, httl]
  have hrun1 : cacheSecretCall m n now₁ [Ev.cacheDone, Ev.backendDone .deleted] =
      ⟨some st.secret, true,
        { m with m := ainsert m.m n { st with ttl := now₁ + m.timeouts.deletionDelay } },
        true, false⟩ := by
    simp [cacheSecretCall, secretLoop, cacheSecretLookup, hget1, hc, hnotfresh,
      hdel1]
  have hst' : alookup (ainsert m.m n
      { st with ttl := now₁ + m.timeouts.deletionDelay }) n =
      some { st with ttl := now₁ + m.timeouts.deletionDelay } :=
    alookup_ainsert_self m.m n _
  have hexp2 : isExpired { st with ttl := now₁ + m.timeouts.deletionDelay } now₂
      = true := by
    simp [isExpired]
    omega
  have hget2 :
      (⟨ainsert m.m n { st with ttl := now₁ + m.timeouts.deletionDelay },
        m.timeouts⟩ : SecretMap).Get n now₂ =
      (({ zeroSecretTime with deleted := true }, false),
        ⟨aerase (ainsert m.m n { st with ttl := now₁ + m.timeouts.deletionDelay }) n,
          m.timeouts⟩) := by
    simp [SecretMap.Get, hst', hexp2]
  have hnone2 : alookup
      (aerase (ainsert m.m n { st with ttl := now₁ + m.timeouts.deletionDelay }) n)
      n = none :=
    alookup_aerase_self _ n
  refine ⟨?_, ?_, ?_, ?_, ?_⟩
  · rw [hrun1]
  · rw [hrun1]
  · rw [hrun1]; exact hst'
  · rw [hrun1]
    simp [cacheSecretCall, secretLoop, cacheSecretLookup, hget2, zeroSecretTime,
      SecretMap.Delete, hnone2]
  · rw [hrun1]
    simp [cacheSecretCall, secretLoop, cacheSecretLookup, hget2, zeroSecretTime,
      SecretMap.Delete, hnone2]

/-- Witness for C2 at a concrete input: live entry inserted at time 1 in a
configuration with `fresh = 0` and `deletion_delay = 5`; first call at time 3,
second call at time 9. -/
theorem c2_deleted_grace_window_witness :
    (cacheSecretCall ⟨[("k", ⟨exSecret, 1, 0, false⟩)], ⟨0, 10, 20, 5⟩⟩ "k" 3
        [Ev.cacheDone, Ev.backendDone .deleted]).secret = some exSecret ∧
    (cacheSecretCall ⟨[("k", ⟨exSecret, 1, 0, false⟩)], ⟨0, 10, 20, 5⟩⟩ "k" 3
        [Ev.cacheDone, Ev.backendDone .deleted]).ok = true ∧
    alookup (cacheSecretCall ⟨[("k", ⟨exSecret, 1, 0, false⟩)], ⟨0, 10, 20, 5⟩⟩
        "k" 3 [Ev.cacheDone, Ev.backendDone .deleted]).map.m "k" =
      some ⟨exSecret, 1, 8, false⟩ ∧
    (cacheSecretCall (cacheSecretCall
        ⟨[("k", ⟨exSecret, 1, 0, false⟩)], ⟨0, 10, 20, 5⟩⟩ "k" 3
        [Ev.cacheDone, Ev.backendDone .deleted]).map "k" 9
        [Ev.cacheDone, Ev.backendDone .deleted]).secret = none ∧
    (cacheSecretCall (cacheSecretCall
        ⟨[("k", ⟨exSecret, 1, 0, false⟩)], ⟨0, 10, 20, 5⟩⟩ "k" 3
        [Ev.cacheDone, Ev.backendDone .deleted]).map "k" 9
        [Ev.cacheDone, Ev.backendDone .deleted]).ok = false :=
  c2_deleted_grace_window ⟨[("k", ⟨exSecret, 1, 0, false⟩)], ⟨0, 10, 20, 5⟩⟩
    "k" 3 9 ⟨exSecret, 1, 0, false⟩ (by decide) (by decide) (by decide)
    (by decide) (by decide) (by decide)

/-! ## Claim C9 -/

theorem cacheSecretLookup_some_content (m : SecretMap) (n : String)
    (now : Nat) (sct : SecretTime) (m' : SecretMap)
    (h : cacheSecretLookup m n now = (some sct, m')) :
    sct.secret.content ≠ [] := by
  simp only [cacheSecretLookup] at h
  split at h
  · rename_i hcond
    have h1 := congrArg Prod.fst h
    simp only [Option.some.injEq] at h1
    rw [h1] at hcond
    exact hcond.2
  · simp at h

theorem secretLoop_cache_only_nonempty (name : String) (now : Nat)
    (st : SecretLoopState) (evs : List Ev)
    (hinv : ∀ s, st.cachedSecret = some s → s.content ≠ []) :
    (secretLoop name now st evs).fromBackend = false →
    (secretLoop name now st evs).ok = true →
    (((secretLoop name now st evs).secret.map Secret.content).getD []) ≠ [] := by
  induction evs generalizing st with
  | nil =>
    intro _ hok
    simp [secretLoop] at hok
  | cons ev rest ih =>
    cases ev with
    | backendDone r =>
      by_cases hb : st.backendStarted ∧ st.backendOpen
      · cases r with
        | success s =>
          simp [secretLoop, hb]
        | deleted =>
          by_cases hco : st.cacheOpen
          · simp only [secretLoop, if_pos hb, hco, if_pos]
            exact ih _ (by intro s hs; exact hinv s hs)
          · simp only [secretLoop, if_pos hb, hco, if_neg, Bool.false_eq_true,
              ite_false]
            intro _ hok
            match hcs : st.cachedSecret with
            | some s => simp [hcs]; exact hinv s hcs
            | none => simp [hcs] at hok
        | failure =>
          by_cases hco : st.cacheOpen
          · simp only [secretLoop, if_pos hb, hco, if_pos]
            exact ih _ (by intro s hs; exact hinv s hs)
          · simp only [secretLoop, if_pos hb, hco, if_neg, Bool.false_eq_true,
              ite_false]
            intro _ hok
            match hcs : st.cachedSecret with
            | some s => simp [hcs]; exact hinv s hcs
            | none => simp [hcs] at hok
      · simp only [secretLoop, if_neg hb]
        exact ih st hinv
    | cacheDone =>
      by_cases hco : st.cacheOpen
      · simp only [secretLoop, hco, if_pos]
        match hcl : cacheSecretLookup st.map name now with
        | (some sct, m') =>
          have hcnt : sct.secret.content ≠ [] :=
            cacheSecretLookup_some_content st.map name now sct m' hcl
          by_cases hfresh : now - sct.time < st.map.timeouts.fresh
          · simp [hfresh, hcnt]
          · simp only [hfresh, if_neg, ite_false]
            exact ih _ (by intro s hs; simp at hs; rw [← hs]; exact hcnt)
        | (none, m') =>
          exact ih _ (by intro s hs; exact hinv s hs)
      · simp only [secretLoop, hco, if_neg, Bool.false_eq_true, ite_false]
        exact ih st hinv
    | backendDeadline =>
      by_cases hd : st.deadlineArmed
      · simp only [secretLoop, hd, if_pos]
        match hcs : st.cachedSecret with
        | some s =>
          intro _ _
          simp
          exact hinv s hcs
        | none =>
          exact ih _ (by intro s hs; simp at hs)
      · simp only [secretLoop, hd, if_neg, Bool.false_eq_true, ite_false]
        exact ih st hinv
    | failureDeadline =>
      intro _ hok
      simp [secretLoop] at hok

/-- C9: whenever `Cache.Secret(n)` returns successfully with a value that
does not originate from a successful backend response, that value's content
is non-empty — and the coordinator's cache probe treats store entries with
empty content (metadata-only entries and tombstones alike) as misses. -/
theorem c9_cache_origin_nonempty :
    (∀ (m : SecretMap) (n : String) (now : Nat) (evs : List Ev),
        (cacheSecretCall m n now evs).fromBackend = false →
        (cacheSecretCall m n now evs).ok = true →
        (((cacheSecretCall m n now evs).secret.map Secret.content).getD [])
          ≠ []) ∧
    (∀ (m : SecretMap) (n : String) (now : Nat) (st : SecretTime),
        alookup m.m n = some st → st.secret.content = [] →
        (cacheSecretLookup m n now).1 = none) := by
  constructor
  · intro m n now evs
    exact secretLoop_cache_only_nonempty n now _ evs (by intro s hs; simp at hs)
  · intro m n now st hl hempty
    unfold cacheSecretLookup
    by_cases hexp : isExpired st now = true
    · simp [SecretMap.Get, hl, hexp, zeroSecretTime, zeroSecret]
    · have hexp' : isExpired st now = false := by
        cases h : isExpired st now
        · rfl
        · exact absurd h hexp
      simp [SecretMap.Get, hl, hexp', hempty]

/-- Witness for C9 at concrete inputs: a fresh cache hit on `exMapLive`
(returned value originates from the cache and has content `[66]`), and the
probe on the tombstone store `exMapTomb` reporting a miss. -/
theorem c9_cache_origin_nonempty_witness :
    (((cacheSecretCall exMapLive "k" 3 [Ev.cacheDone]).secret.map
        Secret.content).getD []) ≠ [] ∧
    (cacheSecretLookup exMapTomb "k" 5).1 = none :=
  ⟨c9_cache_origin_nonempty.1 exMapLive "k" 3 [Ev.cacheDone]
      (by decide) (by decide),
    c9_cache_origin_nonempty.2 exMapTomb "k" 5 ⟨zeroSecret, 1, 10, true⟩
      (by decide) (by decide)⟩

/-! ## Claim C4 -/

/-- C4 counterexample: a `Cache.SecretList()` call on `exMapLive` whose cache
snapshot (computed at the start of the call) is `[exSecret]` and whose
`max_wait` deadline fires before any backend result returns the empty list,
not the non-empty pre-call snapshot. -/
theorem c4_counterexample :
    (cacheSecretListCall exMapLive 3 [LEv.cacheDone, LEv.failureDeadline]).1
      = [] ∧
    (exMapLive.Values 3).1 = [exSecret] ∧
    (cacheSecretListCall exMapLive 3 [LEv.cacheDone, LEv.failureDeadline]).1
      ≠ (exMapLive.Values 3).1 := by decide

/-- C4 amended: when `Cache.SecretList()` reaches the `max_wait` deadline
without a backend result it returns the empty list, regardless of the cache
snapshot computed at the start of the call; the pre-call snapshot is what is
returned when the `backend_deadline` timer fires after the snapshot is
available. -/
theorem c4_maxwait_returns_empty (m : SecretMap) (now : Nat) :
    (cacheSecretListCall m now [LEv.cacheDone, LEv.failureDeadline]).1 = [] ∧
    (cacheSecretListCall m now [LEv.cacheDone, LEv.backendDeadline]).1 =
      (m.Values now).1 := by
  constructor <;> simp [cacheSecretListCall, secretListLoop]

/-! ## Claim C3: supporting lemmas -/

theorem alookup_none_iff (l : List (String × SecretTime)) (k : String) :
    alookup l k = none ↔ k ∉ akeys l := by
  constructor
  · intro h hk
    induction l with
    | nil => simp [akeys] at hk
    | cons kv rest ih =>
      by_cases hkv : kv.1 = k
      · simp [alookup, hkv] at h
      · simp [alookup, hkv] at h
        simp [akeys] at hk
        rcases hk with hk | hk
        · exact hkv hk.symm
        · exact ih h (by simp [akeys, hk])
  · exact alookup_eq_none_of_not_mem_akeys l k

theorem akeys_aerase_subset (l : List (String × SecretTime)) (k : String) :
    akeys (aerase l k) ⊆ akeys l := by
  induction l with
  | nil => simp [aerase]
  | cons kv rest ih =>
    obtain ⟨a, b⟩ := kv
    by_cases hk : a = k
    · simp only [aerase, hk, if_pos, akeys, List.map_cons]
      exact List.Subset.trans ih (List.subset_cons_self _ _)
    · simp only [aerase, hk, if_neg, akeys, List.map_cons]
      exact List.cons_subset_cons _ ih

theorem akeys_filter_subset (l : List (String × SecretTime))
    (p : String × SecretTime → Bool) : akeys (l.filter p) ⊆ akeys l := by
  induction l with
  | nil => simp
  | cons kv rest ih =>
    by_cases hp : p kv
    · rw [List.filter_cons_of_pos hp]
      simp only [akeys, List.map_cons]
      exact List.cons_subset_cons _ ih
    · rw [List.filter_cons_of_neg hp]
      simp only [akeys, List.map_cons]
      exact List.Subset.trans ih (List.subset_cons_self _ _)

theorem akeys_nodup_aerase (l : List (String × SecretTime)) (k : String)
    (h : (akeys l).Nodup) : (akeys (aerase l k)).Nodup := by
  induction l with
  | nil => simp [aerase, akeys]
  | cons kv rest ih =>
    obtain ⟨a, b⟩ := kv
    simp only [akeys, List.map_cons, List.nodup_cons] at h
    by_cases hk : a = k
    · simp only [aerase, hk, if_pos]
      exact ih h.2
    · simp only [aerase, if_neg hk, akeys, List.map_cons, List.nodup_cons]
      exact ⟨fun hmem => h.1 (akeys_aerase_subset rest k hmem), ih h.2⟩

theorem not_mem_akeys_aerase_self (l : List (String × SecretTime))
    (k : String) : k ∉ akeys (aerase l k) := by
  rw [← alookup_none_iff]
  exact alookup_aerase_self l k

theorem akeys_nodup_ainsert (l : List (String × SecretTime)) (k : String)
    (v : SecretTime) (h : (akeys l).Nodup) : (akeys (ainsert l k v)).Nodup := by
  have h1 : akeys (ainsert l k v) = akeys (aerase l k) ++ [k] := by
    simp [ainsert, akeys]
  rw [h1, List.nodup_append]
  refine ⟨akeys_nodup_aerase l k h, List.nodup_singleton k, ?_⟩
  intro a ha hb
  simp at hb
  subst hb
  exact not_mem_akeys_aerase_self l a ha

theorem alookup_filter_nodup (p : String × SecretTime → Bool) :
    ∀ (l : List (String × SecretTime)) (k : String) (v : SecretTime),
      (akeys l).Nodup → alookup l k = some v →
      alookup (l.filter p) k = if p (k, v) then some v else none := by
  intro l
  induction l with
  | nil => intro k v _ h; simp [alookup] at h
  | cons kv rest ih =>
    intro k v hnd h
    obtain ⟨a, b⟩ := kv
    simp only [akeys, List.map_cons, List.nodup_cons] at hnd
    by_cases hk : a = k
    · simp only [alookup, hk, if_pos, Option.some.injEq] at h
      subst hk
      subst h
      have hrest : alookup (rest.filter p) a = none := by
        rw [alookup_none_iff]
        exact fun hmem => hnd.1 (akeys_filter_subset rest p hmem)
      by_cases hp : p (a, b)
      · rw [List.filter_cons_of_pos hp]
        simp [alookup, hp]
      · rw [List.filter_cons_of_neg hp]
        simp only [Bool.not_eq_true] at hp
        simp [hp, hrest]
    · simp only [alookup, hk, if_neg] at h
      by_cases hp : p (a, b)
      · rw [List.filter_cons_of_pos hp]
        simp only [alookup, hk, if_neg]
        exact ih k v hnd.2 h
      · rw [List.filter_cons_of_neg hp]
        exact ih k v hnd.2 h

theorem alookup_map_value (l : List (String × SecretTime)) (k : String)
    (g : SecretTime → SecretTime) :
    alookup (l.map (fun kv => (kv.1, g kv.2))) k = (alookup l k).map g := by
  induction l with
  | nil => simp [alookup]
  | cons kv rest ih =>
    by_cases hk : kv.1 = k <;> simp [alookup, hk, ih]

theorem foldl_ainsert_lookup_notmem :
    ∀ (l base : List (String × SecretTime)) (k : String), k ∉ akeys l →
      alookup (l.foldl (fun acc kv => ainsert acc kv.1 kv.2) base) k =
        alookup base k := by
  intro l
  induction l with
  | nil => intro base k _; simp
  | cons kv rest ih =>
    intro base k h
    simp only [akeys, List.map_cons, List.mem_cons] at h
    push_neg at h
    simp only [List.foldl_cons]
    rw [ih (ainsert base kv.1 kv.2) k h.2]
    exact alookup_ainsert_ne base kv.1 k kv.2 h.1

theorem foldl_ainsert_lookup_mem :
    ∀ (l base : List (String × SecretTime)) (k : String) (v : SecretTime),
      (akeys l).Nodup → alookup l k = some v →
      alookup (l.foldl (fun acc kv => ainsert acc kv.1 kv.2) base) k =
        some v := by
  intro l
  induction l with
  | nil => intro base k v _ h; simp [alookup] at h
  | cons kv rest ih =>
    intro base k v hnd h
    simp only [akeys, List.map_cons, List.nodup_cons] at hnd
    simp only [List.foldl_cons]
    by_cases hk : kv.1 = k
    · simp only [alookup, hk, if_pos, Option.some.injEq] at h
      rw [foldl_ainsert_lookup_notmem rest (ainsert base kv.1 kv.2) k
        (by rw [← hk]; exact hnd.1)]
      rw [← hk, ← h]
      exact alookup_ainsert_self base kv.1 kv.2
    · simp only [alookup, hk, if_neg] at h
      exact ih (ainsert base kv.1 kv.2) k v hnd.2 h

theorem get_preserves_other_lookups (m : SecretMap) (key k : String)
    (now : Nat) (h : k ≠ key) :
    alookup (m.Get key now).2.m k = alookup m.m k := by
  cases hl : alookup m.m key with
  | none => simp [SecretMap.Get, hl]
  | some s =>
    cases hb : isExpired s now with
    | false => simp [SecretMap.Get, hl, hb]
    | true => simp [SecretMap.Get, hl, hb, alookup_aerase_ne m.m key k h]

theorem get_preserves_timeouts (m : SecretMap) (key : String) (now : Nat) :
    (m.Get key now).2.timeouts = m.timeouts := by
  cases hl : alookup m.m key with
  | none => simp [SecretMap.Get, hl]
  | some s =>
    cases hb : isExpired s now with
    | false => simp [SecretMap.Get, hl, hb]
    | true => simp [SecretMap.Get, hl, hb]

theorem get_preserves_akeys_nodup (m : SecretMap) (key : String) (now : Nat)
    (h : (akeys m.m).Nodup) : (akeys (m.Get key now).2.m).Nodup := by
  cases hl : alookup m.m key with
  | none => simpa [SecretMap.Get, hl] using h
  | some s =>
    cases hb : isExpired s now with
    | false => simpa [SecretMap.Get, hl, hb] using h
    | true =>
      simp only [SecretMap.Get, hl, hb]
      simpa using akeys_nodup_aerase m.m key h

theorem alookup_map_keypres (f : String × SecretTime → String × SecretTime)
    (hf : ∀ kv, (f kv).1 = kv.1) :
    ∀ (l : List (String × SecretTime)) (k : String),
      alookup (l.map f) k = (alookup l k).map (fun v => (f (k, v)).2) := by
  intro l
  induction l with
  | nil => intro k; simp [alookup]
  | cons kv rest ih =>
    intro k
    obtain ⟨a, b⟩ := kv
    by_cases hk : a = k
    · subst hk
      simp [alookup, List.map_cons, hf (a, b)]
    · simp only [List.map_cons, alookup]
      rw [hf (a, b)]
      simp only [hk, if_neg]
      exact ih k

theorem buildNewMap_cons (b : Secret) (rest : List Secret) (m nm : SecretMap)
    (now : Nat) :
    buildNewMap m nm (b :: rest) now =
      if b.content = [] then
        if (m.Get b.name now).1.2 = true ∧
            (m.Get b.name now).1.1.secret.content ≠ [] then
          buildNewMap (m.Get b.name now).2
            (nm.Put b.name (m.Get b.name now).1.1.secret 0 now) rest now
        else buildNewMap (m.Get b.name now).2 (nm.Put b.name b 0 now) rest now
      else buildNewMap m (nm.Put b.name b 0 now) rest now := rfl

theorem buildNewMap_nm_lookup_notmem :
    ∀ (listing : List Secret) (m nm : SecretMap) (now : Nat) (n : String),
      n ∉ listing.map Secret.name →
      alookup (buildNewMap m nm listing now).1.m n = alookup nm.m n := by
  intro listing
  induction listing with
  | nil => intro m nm now n _; simp [buildNewMap]
  | cons b rest ih =>
    intro m nm now n h
    simp only [List.map_cons, List.mem_cons] at h
    push_neg at h
    have hput : ∀ (mm : SecretMap) (s : Secret) (t : Nat),
        alookup (mm.Put b.name s 0 t).m n = alookup mm.m n := by
      intro mm s t
      simp only [SecretMap.Put]
      exact alookup_ainsert_ne mm.m b.name n _ h.1
    rw [buildNewMap_cons]
    by_cases hc : b.content = []
    · rw [if_pos hc]
      by_cases hcond : ((m.Get b.name now).1.2 = true ∧
          (m.Get b.name now).1.1.secret.content ≠ [])
      · rw [if_pos hcond, ih _ _ now n h.2, hput]
      · rw [if_neg hcond, ih _ _ now n h.2, hput]
    · rw [if_neg hc, ih _ _ now n h.2, hput]

theorem buildNewMap_m_lookup_notmem :
    ∀ (listing : List Secret) (m nm : SecretMap) (now : Nat) (k : String),
      k ∉ listing.map Secret.name →
      alookup (buildNewMap m nm listing now).2.m k = alookup m.m k := by
  intro listing
  induction listing with
  | nil => intro m nm now k _; simp [buildNewMap]
  | cons b rest ih =>
    intro m nm now k h
    simp only [List.map_cons, List.mem_cons] at h
    push_neg at h
    rw [buildNewMap_cons]
    by_cases hc : b.content = []
    · rw [if_pos hc]
      by_cases hcond : ((m.Get b.name now).1.2 = true ∧
          (m.Get b.name now).1.1.secret.content ≠ [])
      · rw [if_pos hcond, ih _ _ now k h.2]
        exact get_preserves_other_lookups m b.name k now h.1
      · rw [if_neg hcond, ih _ _ now k h.2]
        exact get_preserves_other_lookups m b.name k now h.1
    · rw [if_neg hc]
      exact ih _ _ now k h.2

theorem buildNewMap_m_timeouts :
    ∀ (listing : List Secret) (m nm : SecretMap) (now : Nat),
      (buildNewMap m nm listing now).2.timeouts = m.timeouts := by
  intro listing
  induction listing with
  | nil => intro m nm now; simp [buildNewMap]
  | cons b rest ih =>
    intro m nm now
    rw [buildNewMap_cons]
    by_cases hc : b.content = []
    · rw [if_pos hc]
      by_cases hcond : ((m.Get b.name now).1.2 = true ∧
          (m.Get b.name now).1.1.secret.content ≠ [])
      · rw [if_pos hcond, ih]
        exact get_preserves_timeouts m b.name now
      · rw [if_neg hcond, ih]
        exact get_preserves_timeouts m b.name now
    · rw [if_neg hc]
      exact ih _ _ now

theorem buildNewMap_m_nodup :
    ∀ (listing : List Secret) (m nm : SecretMap) (now : Nat),
      (akeys m.m).Nodup → (akeys (buildNewMap m nm listing now).2.m).Nodup := by
  intro listing
  induction listing with
  | nil => intro m nm now h; simpa [buildNewMap] using h
  | cons b rest ih =>
    intro m nm now h
    rw [buildNewMap_cons]
    by_cases hc : b.content = []
    · rw [if_pos hc]
      by_cases hcond : ((m.Get b.name now).1.2 = true ∧
          (m.Get b.name now).1.1.secret.content ≠ [])
      · rw [if_pos hcond]
        exact ih _ _ now (get_preserves_akeys_nodup m b.name now h)
      · rw [if_neg hcond]
        exact ih _ _ now (get_preserves_akeys_nodup m b.name now h)
    · rw [if_neg hc]
      exact ih _ _ now h

theorem buildNewMap_nm_nodup :
    ∀ (listing : List Secret) (m nm : SecretMap) (now : Nat),
      (akeys nm.m).Nodup → (akeys (buildNewMap m nm listing now).1.m).Nodup := by
  intro listing
  induction listing with
  | nil => intro m nm now h; simpa [buildNewMap] using h
  | cons b rest ih =>
    intro m nm now h
    have hput : ∀ (s : Secret) (t : Nat),
        (akeys (nm.Put b.name s 0 t).m).Nodup := by
      intro s t
      simp only [SecretMap.Put]
      exact akeys_nodup_ainsert nm.m b.name _ h
    rw [buildNewMap_cons]
    by_cases hc : b.content = []
    · rw [if_pos hc]
      by_cases hcond : ((m.Get b.name now).1.2 = true ∧
          (m.Get b.name now).1.1.secret.content ≠ [])
      · rw [if_pos hcond]
        exact ih _ _ now (hput _ _)
      · rw [if_neg hcond]
        exact ih _ _ now (hput _ _)
    · rw [if_neg hc]
      exact ih _ _ now (hput _ _)

theorem buildNewMap_nm_lookup_of_mem :
    ∀ (listing : List Secret) (m nm : SecretMap) (now : Nat) (b : Secret)
      (st : SecretTime),
      (listing.map Secret.name).Nodup → b ∈ listing → b.content = [] →
      alookup m.m b.name = some st → isExpired st now = false →
      st.secret.content ≠ [] →
      alookup (buildNewMap m nm listing now).1.m b.name =
        some ⟨st.secret, now, 0, false⟩ := by
  intro listing
  induction listing with
  | nil => intro m nm now b st _ hmem; simp at hmem
  | cons x rest ih =>
    intro m nm now b st hnd hmem hc hl hexp hcnt
    simp only [List.map_cons, List.nodup_cons] at hnd
    rcases List.mem_cons.mp hmem with hbx | hbr
    · subst hbx
      have hget : m.Get b.name now = ((st, true), m) := by
        simp [SecretMap.Get, hl, hexp]
      have hcond : ((m.Get b.name now).1.2 = true ∧
          (m.Get b.name now).1.1.secret.content ≠ []) := by
        rw [hget]; exact ⟨rfl, hcnt⟩
      rw [buildNewMap_cons, if_pos hc, if_pos hcond, hget]
      rw [buildNewMap_nm_lookup_notmem rest _ _ now b.name hnd.1]
      simp only [SecretMap.Put, ite_true]
      exact alookup_ainsert_self nm.m b.name _
    · have hbname : b.name ∈ rest.map Secret.name :=
        List.mem_map.mpr ⟨b, hbr, rfl⟩
      have hxb : b.name ≠ x.name := fun h => hnd.1 (h ▸ hbname)
      rw [buildNewMap_cons]
      by_cases hcx : x.content = []
      · rw [if_pos hcx]
        by_cases hcond : ((m.Get x.name now).1.2 = true ∧
            (m.Get x.name now).1.1.secret.content ≠ [])
        · rw [if_pos hcond]
          exact ih _ _ now b st hnd.2 hbr hc
            (by rw [get_preserves_other_lookups m x.name b.name now hxb]; exact hl)
            hexp hcnt
        · rw [if_neg hcond]
          exact ih _ _ now b st hnd.2 hbr hc
            (by rw [get_preserves_other_lookups m x.name b.name now hxb]; exact hl)
            hexp hcnt
      · rw [if_neg hcx]
        exact ih _ _ now b st hnd.2 hbr hc hl hexp hcnt
theorem replace_lookup_in_m2 (m m2 : SecretMap) (now : Nat) (k : String)
    (v : SecretTime) (hnd : (akeys m2.m).Nodup) (h : alookup m2.m k = some v) :
    alookup (m.Replace m2 now).m k = some v := by
  unfold SecretMap.Replace
  exact foldl_ainsert_lookup_mem m2.m _ k v hnd h

theorem replace_lookup_not_in_m2 (m m2 : SecretMap) (now : Nat) (k : String)
    (st : SecretTime) (hnd : (akeys m.m).Nodup)
    (h : alookup m.m k = some st) (hk2 : k ∉ akeys m2.m) :
    alookup (m.Replace m2 now).m k =
      if st.secret.content = [] then none
      else some (if st.ttl = 0
        then { st with ttl := now + m.timeouts.deletionDelay } else st) := by
  have h1 : alookup (m.Replace m2 now).m k =
      alookup ((m.m.filter (fun kv => !(kv.2.secret.content.isEmpty))).map
        (fun kv => (kv.1, if kv.2.ttl = 0
          then { kv.2 with ttl := now + m.timeouts.deletionDelay } else kv.2))) k := by
    unfold SecretMap.Replace
    exact foldl_ainsert_lookup_notmem m2.m _ k hk2
  rw [h1, alookup_map_keypres (fun kv => (kv.1, if kv.2.ttl = 0
    then { kv.2 with ttl := now + m.timeouts.deletionDelay } else kv.2))
    (fun kv => rfl)]
  rw [alookup_filter_nodup (fun kv => !(kv.2.secret.content.isEmpty)) m.m k st
    hnd h]
  by_cases hc : st.secret.content = []
  · simp [hc]
  · have hie : st.secret.content.isEmpty = false := by
      cases hcc : st.secret.content
      · exact absurd hcc hc
      · rfl
    simp [hie, hc]

/-! ## Claim C3 -/

/-- C3 counterexample: the store `exMapExpiredK1` holds a non-empty entry for
"k1" and the backend listing carries "k1" with empty content, so the claim's
hypotheses hold; yet the entry's deletion deadline (3) has passed by merge
time 10, so the `SecretMap.Get` inside `Cache.backendSecretList` purges it,
the merge takes the backend's empty-content entry, and the post-merge store
does not retain the store's non-empty entry. -/
theorem c3_counterexample :
    alookup exMapExpiredK1.m "k1" = some ⟨exSecretK1, 1, 3, false⟩ ∧
    exSecretK1.content ≠ [] ∧
    exListingK1.content = [] ∧
    alookup (backendListReplace exMapExpiredK1 [exListingK1] 10).m "k1" =
      some ⟨exListingK1, 10, 0, false⟩ ∧
    (alookup (backendListReplace exMapExpiredK1 [exListingK1] 10).m "k1").map
      (fun e => e.secret.content) = some [] := by decide

/-- C3 amended: after a successful backend listing, the merge performed by
`Cache.backendSecretList` plus `SecretMap.Replace` satisfies: (a) for each
listed name whose backend entry has empty content while the store holds a
**non-expired** non-empty entry for that name, the post-merge store retains
that entry's payload with no deletion scheduled (zero ttl); (b) every
previously cached name absent from the listing is dropped immediately when
its content was empty, and kept with its deletion-deadline stamped
`now + deletion_delay` (when not already scheduled) when its content was
non-empty. -/
theorem c3_list_merge_preserves_content (m : SecretMap) (listing : List Secret)
    (now : Nat) (hmk : (akeys m.m).Nodup)
    (hln : (listing.map Secret.name).Nodup) :
    (∀ b ∈ listing, b.content = [] →
      ∀ st, alookup m.m b.name = some st → isExpired st now = false →
        st.secret.content ≠ [] →
        alookup (backendListReplace m listing now).m b.name =
          some ⟨st.secret, now, 0, false⟩) ∧
    (∀ (k : String) (st : SecretTime), alookup m.m k = some st →
      k ∉ listing.map Secret.name →
      (st.secret.content = [] →
        alookup (backendListReplace m listing now).m k = none) ∧
      (st.secret.content ≠ [] →
        alookup (backendListReplace m listing now).m k =
          some (if st.ttl = 0
            then { st with ttl := now + m.timeouts.deletionDelay } else st))) := by
  have hnm_nodup :
      (akeys (buildNewMap m (NewSecretMap m.timeouts) listing now).1.m).Nodup :=
    buildNewMap_nm_nodup listing m _ now (by simp [NewSecretMap, akeys])
  have hm_nodup :
      (akeys (buildNewMap m (NewSecretMap m.timeouts) listing now).2.m).Nodup :=
    buildNewMap_m_nodup listing m _ now hmk
  constructor
  · intro b hb hc st hl hexp hcnt
    have hlook :
        alookup (buildNewMap m (NewSecretMap m.timeouts) listing now).1.m b.name
          = some ⟨st.secret, now, 0, false⟩ :=
      buildNewMap_nm_lookup_of_mem listing m _ now b st hln hb hc hl hexp hcnt
    exact replace_lookup_in_m2 _ _ now b.name _ hnm_nodup hlook
  · intro k st hst hk
    have hnone :
        alookup (buildNewMap m (NewSecretMap m.timeouts) listing now).1.m k
          = none := by
      rw [buildNewMap_nm_lookup_notmem listing m _ now k hk]
      rfl
    have hk2 : k ∉ akeys (buildNewMap m (NewSecretMap m.timeouts) listing now).1.m :=
      (alookup_none_iff _ _).mp hnone
    have hmkeep :
        alookup (buildNewMap m (NewSecretMap m.timeouts) listing now).2.m k
          = some st := by
      rw [buildNewMap_m_lookup_notmem listing m _ now k hk]
      exact hst
    have hrepl := replace_lookup_not_in_m2 _ _ now k st hm_nodup hmkeep hk2
    rw [buildNewMap_m_timeouts] at hrepl
    constructor
    · intro hc
      rw [backendListReplace, hrepl, if_pos hc]
    · intro hc
      rw [backendListReplace, hrepl, if_neg hc]

/-- Witness for C3 at a concrete input: store `exMapThree` (live "k1", "k2",
metadata-only "k3"), backend listing `[exListingK1]` (empty-content "k1"),
merged at time 10 with deletion delay 5. -/
theorem c3_list_merge_preserves_content_witness :
    alookup (backendListReplace exMapThree [exListingK1] 10).m "k1" =
      some ⟨exSecretK1, 10, 0, false⟩ ∧
    alookup (backendListReplace exMapThree [exListingK1] 10).m "k2" =
      some ⟨exSecretK2, 1, 15, false⟩ ∧
    alookup (backendListReplace exMapThree [exListingK1] 10).m "k3" = none := by
  have h := c3_list_merge_preserves_content exMapThree [exListingK1] 10
    (by decide) (by decide)
  refine ⟨?_, ?_, ?_⟩
  · exact h.1 exListingK1 (by decide) (by decide) ⟨exSecretK1, 1, 0, false⟩
      (by decide) (by decide) (by decide)
  · exact (h.2 "k2" ⟨exSecretK2, 1, 0, false⟩ (by decide) (by decide)).2
      (by decide)
  · exact (h.2 "k3" ⟨exSecretK3Meta, 1, 0, false⟩ (by decide) (by decide)).1
      (by decide)

/-! ## Claim C8: base64 lemmas -/

theorem decode6_encode6_fin : ∀ v : Fin 64, decode6 (encode6 v.val) =
    some v.val := by decide

theorem encode6_ne_pad_fin : ∀ v : Fin 64, encode6 v.val ≠ '=' := by decide

theorem decode6_encode6_of_lt (v : Nat) (h : v < 64) :
    decode6 (encode6 v) = some v := decode6_encode6_fin ⟨v, h⟩

theorem encode6_ne_pad_of_lt (v : Nat) (h : v < 64) : encode6 v ≠ '=' :=
  encode6_ne_pad_fin ⟨v, h⟩

theorem b64Decode_b64Encode :
    ∀ (b : List Nat), (∀ x ∈ b, x < 256) →
      b64Decode (b64Encode b) = some b := by
  intro b
  induction b using b64Encode.induct with
  | case1 => intro _; rfl
  | case2 a =>
    intro h
    have ha : a < 256 := h a (by simp)
    have h1 : decode6 (encode6 (a / 4)) = some (a / 4) :=
      decode6_encode6_of_lt _ (by omega)
    have h2 : decode6 (encode6 (a % 4 * 16)) = some (a % 4 * 16) :=
      decode6_encode6_of_lt _ (by omega)
    simp [b64Encode, b64Decode, h1, h2]
    omega
  | case3 a b =>
    intro h
    have ha : a < 256 := h a (by simp)
    have hb : b < 256 := h b (by simp)
    have h1 : decode6 (encode6 (a / 4)) = some (a / 4) :=
      decode6_encode6_of_lt _ (by omega)
    have h2 : decode6 (encode6 (a % 4 * 16 + b / 16)) =
        some (a % 4 * 16 + b / 16) := decode6_encode6_of_lt _ (by omega)
    have h3 : decode6 (encode6 (b % 16 * 4)) = some (b % 16 * 4) :=
      decode6_encode6_of_lt _ (by omega)
    have hne3 : encode6 (b % 16 * 4) ≠ '=' := encode6_ne_pad_of_lt _ (by omega)
    simp [b64Encode, b64Decode, h1, h2, h3, hne3]
    constructor <;> omega
  | case4 a b c rest ih =>
    intro h
    have ha : a < 256 := h a (by simp)
    have hb : b < 256 := h b (by simp)
    have hc : c < 256 := h c (by simp)
    have hrest := ih (fun x hx => h x (by simp [hx]))
    have h1 : decode6 (encode6 (a / 4)) = some (a / 4) :=
      decode6_encode6_of_lt _ (by omega)
    have h2 : decode6 (encode6 (a % 4 * 16 + b / 16)) =
        some (a % 4 * 16 + b / 16) := decode6_encode6_of_lt _ (by omega)
    have h3 : decode6 (encode6 (b % 16 * 4 + c / 64)) =
        some (b % 16 * 4 + c / 64) := decode6_encode6_of_lt _ (by omega)
    have h4 : decode6 (encode6 (c % 64)) = some (c % 64) :=
      decode6_encode6_of_lt _ (by omega)
    have hne3 : encode6 (b % 16 * 4 + c / 64) ≠ '=' :=
      encode6_ne_pad_of_lt _ (by omega)
    have hne4 : encode6 (c % 64) ≠ '=' := encode6_ne_pad_of_lt _ (by omega)
    simp [b64Encode, b64Decode, h1, h2, h3, h4, hne3, hne4, hrest]
    refine ⟨?_, ?_, ?_⟩ <;> omega

theorem dropWhile_pad_eq_self (l : List Char) (h : '=' ∉ l) :
    l.dropWhile (fun c => c = '=') = l := by
  cases l with
  | nil => rfl
  | cons a rest =>
    simp only [List.mem_cons] at h
    push_neg at h
    have ha : ¬(a = '=') := fun hh => h.1 hh.symm
    simp [List.dropWhile_cons, ha]

theorem dropWhile_pad_replicate (k : Nat) (l : List Char) :
    (List.replicate k '=' ++ l).dropWhile (fun c => c = '=') =
      l.dropWhile (fun c => c = '=') := by
  induction k with
  | zero => simp
  | succ n ih => simp [List.replicate_succ, List.dropWhile_cons, ih]

theorem stripTrailingPad_append_pad (core : List Char) (k : Nat)
    (h : '=' ∉ core) :
    stripTrailingPad (core ++ List.replicate k '=') = core := by
  unfold stripTrailingPad
  rw [List.reverse_append, List.reverse_replicate, dropWhile_pad_replicate,
    dropWhile_pad_eq_self core.reverse
      (fun hh => h (List.mem_reverse.mp hh)),
    List.reverse_reverse]

theorem b64Encode_shape :
    ∀ (b : List Nat), (∀ x ∈ b, x < 256) →
      ∃ core k, b64Encode b = core ++ List.replicate k '=' ∧ '=' ∉ core ∧
        k ≤ 2 ∧ (core.length + k) % 4 = 0 ∧
        (k ≠ 0 → core.length % 4 = 4 - k) := by
  intro b
  induction b using b64Encode.induct with
  | case1 =>
    intro _
    exact ⟨[], 0, by simp [b64Encode], by simp, by omega, by simp, by simp⟩
  | case2 a =>
    intro h
    have ha : a < 256 := h a (by simp)
    refine ⟨[encode6 (a / 4), encode6 (a % 4 * 16)], 2, ?_, ?_,
      by omega, by simp, by simp⟩
    · simp [b64Encode]
    · simp only [List.mem_cons, List.not_mem_nil, or_false]
      push_neg
      exact ⟨fun hh => encode6_ne_pad_of_lt _ (by omega) hh.symm,
        fun hh => encode6_ne_pad_of_lt _ (by omega) hh.symm⟩
  | case3 a b =>
    intro h
    have ha : a < 256 := h a (by simp)
    have hb : b < 256 := h b (by simp)
    refine ⟨[encode6 (a / 4), encode6 (a % 4 * 16 + b / 16),
      encode6 (b % 16 * 4)], 1, ?_, ?_, by omega, by simp, by simp⟩
    · simp [b64Encode]
    · simp only [List.mem_cons, List.not_mem_nil, or_false]
      push_neg
      exact ⟨fun hh => encode6_ne_pad_of_lt _ (by omega) hh.symm,
        fun hh => encode6_ne_pad_of_lt _ (by omega) hh.symm,
        fun hh => encode6_ne_pad_of_lt _ (by omega) hh.symm⟩
  | case4 a b c rest ih =>
    intro h
    have ha : a < 256 := h a (by simp)
    have hb : b < 256 := h b (by simp)
    have hc : c < 256 := h c (by simp)
    obtain ⟨core, k, henc, hpad, hk, hmod, hmod2⟩ :=
      ih (fun x hx => h x (by simp [hx]))
    refine ⟨encode6 (a / 4) :: encode6 (a % 4 * 16 + b / 16) ::
      encode6 (b % 16 * 4 + c / 64) :: encode6 (c % 64) :: core, k, ?_, ?_,
      hk, ?_, ?_⟩
    · simp [b64Encode, henc]
    · simp only [List.mem_cons] at hpad ⊢
      push_neg
      refine ⟨fun hh => encode6_ne_pad_of_lt _ (by omega) hh.symm,
        fun hh => encode6_ne_pad_of_lt _ (by omega) hh.symm,
        fun hh => encode6_ne_pad_of_lt _ (by omega) hh.symm,
        fun hh => encode6_ne_pad_of_lt _ (by omega) hh.symm,
        fun hh => hpad hh⟩
    · simp only [List.length_cons]
      omega
    · intro hk0
      have := hmod2 hk0
      simp only [List.length_cons]
      omega

theorem addPadding_stripTrailingPad (b : List Nat) (h : ∀ x ∈ b, x < 256) :
    addPadding (stripTrailingPad (b64Encode b)) = b64Encode b := by
  obtain ⟨core, k, henc, hpad, hk, hmod, hmod2⟩ := b64Encode_shape b h
  rw [henc, stripTrailingPad_append_pad core k hpad]
  unfold addPadding
  by_cases hk0 : k = 0
  · subst hk0
    have hz : core.length % 4 = 0 := by simpa using hmod
    simp [hz]
  · have h4 : core.length % 4 = 4 - k := hmod2 hk0
    have hne : ¬(core.length % 4 = 0) := by omega
    rw [if_neg hne]
    congr 2
    omega

/-! ## Claim C8 -/

/-- C8: for every byte string `b`, decoding (with the secret-content decoder
of secret.go, which appends `=` until the input length is a multiple of
four) the standard base64 encoding of `b` with its trailing `=` padding
characters removed yields exactly `b`. -/
theorem c8_unpadded_base64_decodes (b : List Nat) (h : ∀ x ∈ b, x < 256) :
    unmarshalContent (stripTrailingPad (b64Encode b)) = some b := by
  unfold unmarshalContent
  rw [addPadding_stripTrailingPad b h]
  exact b64Decode_b64Encode b h

/-- Witness for C8 at a concrete input: the two-byte string `[77, 97]`
("Ma"), whose padded encoding is "TWE=" and unpadded encoding "TWE". -/
theorem c8_unpadded_base64_decodes_witness :
    unmarshalContent (stripTrailingPad (b64Encode [77, 97])) =
      some [77, 97] :=
  c8_unpadded_base64_decodes [77, 97] (by decide)

end KeywhizFS
